import Mathlib

/-!
Shallow embedding of `scripts/update-versions.py` (ucli-tools/ucli-registry).

Python strings are modelled as `List Char` (`Str`): Python indexing/slicing,
`len`, and concatenation then correspond to `List.take`, `List.length`, `++`.
External effects are explicit parameters:
  * the GitHub commits API call (network + JSON decode + the `per_page=1` list)
    is a function `Str → Str → Option GitCommit`; `none` covers the `URLError`,
    `json.JSONDecodeError` and empty-payload (`if not data`) branches, which the
    source all converts to `None`;
  * `datetime.now(timezone.utc).strftime(...)` is a symbolic `now : Str`;
  * success / failure of the actual file write in `save_registry` is a
    Boolean `writeOk` (the `except` branch of the write).
Logging via `print` / `self.error` is presentation and is not modelled, except
for the pieces the run's observable contract needs: the final summary block,
the "No official apps found in registry" error branch, and the run's boolean
result (which `main` turns into the process exit status).
-/

abbrev Str := List Char

def strChars (s : String) : Str := s.data

/-- Model of a Python `datetime` as produced by `datetime.fromisoformat`:
wall-clock fields plus the UTC offset in minutes (an offset-naive datetime is
modelled with offset 0). -/
structure PyDateTime where
  year : Nat
  month : Nat
  day : Nat
  hour : Nat
  minute : Nat
  second : Nat
  offsetMin : Int
deriving DecidableEq

def dval (c : Char) : Nat := c.toNat - 48

def isLeap (y : Nat) : Bool := (y % 4 == 0 && y % 100 != 0) || y % 400 == 0

def daysInMonth (y m : Nat) : Nat :=
  if m = 2 then (if isLeap y then 29 else 28)
  else if m = 4 || m = 6 || m = 9 || m = 11 then 30
  else 31

/-- Offset suffix of an ISO-8601 string after the seconds field: either absent
(offset-naive, modelled as 0) or `+HH:MM` / `-HH:MM`. -/
def parseOffset : Str → Option Int
  | [] => some 0
  | [sg, o1, o2, ':', o3, o4] =>
    if o1.isDigit && o2.isDigit && o3.isDigit && o4.isDigit then
      let hh := 10 * dval o1 + dval o2
      let mm := 10 * dval o3 + dval o4
      if hh ≤ 23 && mm ≤ 59 then
        if sg = '+' then some (Int.ofNat (60 * hh + mm))
        else if sg = '-' then some (-(Int.ofNat (60 * hh + mm)))
        else none
      else none
    else none
  | _ => none

/-- Model of `datetime.fromisoformat` on the grammar the updater feeds it:
`YYYY-MM-DD{T or space}HH:MM:SS` with an optional `±HH:MM` offset (the source
has already rewritten a trailing `Z` to `+00:00`).  Out-of-range fields raise
`ValueError` in Python, which the caller's generic handler turns into `None`;
here they yield `none`. -/
def fromisoChars : Str → Option PyDateTime
  | y1 :: y2 :: y3 :: y4 :: '-' :: m1 :: m2 :: '-' :: d1 :: d2 :: sep ::
      h1 :: h2 :: ':' :: n1 :: n2 :: ':' :: s1 :: s2 :: rest =>
    if (y1.isDigit && y2.isDigit && y3.isDigit && y4.isDigit &&
        m1.isDigit && m2.isDigit && d1.isDigit && d2.isDigit &&
        h1.isDigit && h2.isDigit && n1.isDigit && n2.isDigit &&
        s1.isDigit && s2.isDigit) && (sep = 'T' || sep = ' ') then
      let y := 1000 * dval y1 + 100 * dval y2 + 10 * dval y3 + dval y4
      let mo := 10 * dval m1 + dval m2
      let da := 10 * dval d1 + dval d2
      let ho := 10 * dval h1 + dval h2
      let mi := 10 * dval n1 + dval n2
      let se := 10 * dval s1 + dval s2
      match parseOffset rest with
      | none => none
      | some off =>
        if 1 ≤ y && 1 ≤ mo && mo ≤ 12 && 1 ≤ da && da ≤ daysInMonth y mo &&
           ho ≤ 23 && mi ≤ 59 && se ≤ 59 then
          some ⟨y, mo, da, ho, mi, se, off⟩
        else none
    else none
  | _ => none

/-- Model of `commit_date.replace('Z', '+00:00')` (line 84): the needle is a
single character, so `str.replace` rewrites each occurrence independently. -/
def replaceZ : Str → Str
  | [] => []
  | c :: cs =>
    if c = 'Z' then '+' :: '0' :: '0' :: ':' :: '0' :: '0' :: replaceZ cs
    else c :: replaceZ cs

def natStr (n : Nat) : Str := Nat.toDigits 10 n

def pad2 (n : Nat) : Str := if n < 10 then '0' :: natStr n else natStr n

def pad4 (n : Nat) : Str :=
  if n < 10 then '0' :: '0' :: '0' :: natStr n
  else if n < 100 then '0' :: '0' :: natStr n
  else if n < 1000 then '0' :: natStr n
  else natStr n

/-- Model of `parsed_date.strftime('%Y-%m-%d %H:%M:%S UTC')` (line 85):
CPython renders the datetime's own wall-clock fields, zero-padded; it performs
no timezone conversion, whatever `offsetMin` is. -/
def strftimeFmt (t : PyDateTime) : Str :=
  pad4 t.year ++ '-' :: pad2 t.month ++ '-' :: pad2 t.day ++ ' ' ::
    pad2 t.hour ++ ':' :: pad2 t.minute ++ ':' :: pad2 t.second ++ ' ' ::
    strChars ("UTC")

/-- Lines 84 to 85 of the source: parse the committer date (after the `Z`
rewrite) and render it with `strftime`.  A parse failure propagates as `none`
(caught by the enclosing generic `except`). -/
def formatCommitDate (commit_date : Str) : Option Str :=
  match fromisoChars (replaceZ commit_date) with
  | none => none
  | some parsed => some (strftimeFmt parsed)

/-- Days between 1970-01-01 and year-month-day (proleptic Gregorian), the
standard civil-from-days construction; used only to give a calendar timestamp
its meaning as an instant. -/
def daysFromCivil (y : Int) (m d : Nat) : Int :=
  let y2 : Int := if m ≤ 2 then y - 1 else y
  let era : Int := (if 0 ≤ y2 then y2 else y2 - 399) / 400
  let yoe : Int := y2 - era * 400
  let mp : Int := if 2 < m then (m : Int) - 3 else (m : Int) + 9
  let doy : Int := (153 * mp + 2) / 5 + (d : Int) - 1
  let doe : Int := yoe * 365 + yoe / 4 - yoe / 100 + doy
  era * 146097 + doe - 719468

/-- The instant (seconds since the epoch) a timestamp denotes: its wall-clock
seconds minus its UTC offset. -/
def epochSeconds (t : PyDateTime) : Int :=
  daysFromCivil (Int.ofNat t.year) t.month t.day * 86400
    + (Int.ofNat t.hour) * 3600 + (Int.ofNat t.minute) * 60 + Int.ofNat t.second
    - t.offsetMin * 60

/-- Strip a literal from the front of a string: `some` of the remainder when
the literal is a prefix, else `none`. -/
def dropLit : Str → Str → Option Str
  | [], s => some s
  | _ :: _, [] => none
  | c :: cs, x :: xs => if x = c then dropLit cs xs else none

/-- Model of `re.match(r"github\.com/([^/]+)/([^/]+)", repo_url)` (line 56)
with its two capture groups.  `re.match` anchors at the start of the string;
`[^/]+` is a maximal nonempty run of non-slash characters (greedy matching is
deterministic here, since `[^/]` can never consume the `/` that follows). -/
def parseRepoUrl (s : Str) : Option (Str × Str) :=
  match dropLit (strChars ("github.com/")) s with
  | none => none
  | some r1 =>
    let owner := r1.takeWhile (fun c => c ≠ '/')
    if owner = [] then none
    else
      match r1.dropWhile (fun c => c ≠ '/') with
      | '/' :: r2 =>
        let repo := r2.takeWhile (fun c => c ≠ '/')
        if repo = [] then none else some (owner, repo)
      | _ => none

/-- The successful JSON payload's first element, flattened to the three fields
the source reads: `commit['sha']`, `commit['commit']['committer']['date']`,
`commit['commit']['message']`. -/
structure GitCommit where
  sha : Str
  date : Str
  message : Str
deriving DecidableEq

/-- The dict built at lines 86 to 92 of the source. -/
structure CommitInfo where
  hash : Str
  short_hash : Str
  date : Str
  message : Str
  url : Str
deriving DecidableEq

/-- Model of `commit_message.split('\n')[0]` (line 79). -/
def firstLine (s : Str) : Str := s.takeWhile (fun c => c ≠ '\n')

/-- Model of `RegistryUpdater.get_github_commit_info` (lines 44 to 101).
`api owner repo = none` covers every branch the source converts to `None`
after a successful URL parse: network error, JSON decode error, and an empty
commit list. -/
def get_github_commit_info (api : Str → Str → Option GitCommit)
    (repo_url : Str) : Option CommitInfo :=
  match parseRepoUrl repo_url with
  | none => none
  | some (owner, repo) =>
    match api owner repo with
    | none => none
    | some commit =>
      match formatCommitDate commit.date with
      | none => none
      | some formatted_date =>
        some { hash := commit.sha
             , short_hash := commit.sha.take 8
             , date := formatted_date
             , message := firstLine commit.message
             , url := strChars ("https://github.com/") ++ owner ++
                 strChars ("/") ++ repo ++ strChars ("/commit/") ++ commit.sha }

/-- The `version_info` mapping written at lines 132 to 137; its four keys. -/
structure VersionInfo where
  commit_date : Str
  commit_message : Str
  commit_url : Str
  updated_at : Str
deriving DecidableEq

/-- One tracked entry of `apps.official`.  `repo = []` models a missing or
empty `repo` key (`app.get('repo', '')`); `version_info = none` models the key
being absent. -/
structure App where
  name : Str
  repo : Str
  version : Str
  version_info : Option VersionInfo
deriving DecidableEq

/-- Model of `RegistryUpdater.update_app_version` (lines 103 to 145),
returning the (possibly mutated) entry together with the
`(updated, message)` pair the source returns.  The source's
`app['version_info'].update({...})` writes all four keys, so on this schema
upsert and replacement coincide. -/
def update_app_version (now : Str) (api : Str → Str → Option GitCommit)
    (app : App) : App × Bool × Str :=
  if app.repo = [] then (app, false, strChars ("No repository URL specified"))
  else
    match get_github_commit_info api app.repo with
    | none => (app, false, strChars ("Failed to fetch commit information"))
    | some ci =>
      if app.version = ci.hash then
        (app, false, strChars ("Already at latest version ") ++ ci.short_hash)
      else
        let app2 := { app with
            version := ci.hash
          , version_info := some { commit_date := ci.date
                                 , commit_message := ci.message
                                 , commit_url := ci.url
                                 , updated_at := now } }
        let msg := ci.message.take 50 ++
          (if 50 < ci.message.length then strChars ("...") else [])
        (app2, true, strChars ("Updated to ") ++ ci.short_hash ++
          strChars (": ") ++ msg)

/-- The registry document, restricted to the fields the updater touches:
`metadata.last_updated` and `apps.official`.  `apps_official = none` models
the `apps` or `official` key being absent (`registry.get('apps', {})
.get('official', [])`). -/
structure Registry where
  last_updated : Str
  apps_official : Option (List App)
deriving DecidableEq

/-- The per-entry loop of `update_all_versions` (lines 195 to 207): entry
list after mutation, the `(updated, message)` outcomes in order, and the two
counters.  As in the source, `failed_count` starts at 0 and no branch of the
loop ever increments it. -/
def update_entries (api : Str → Str → Option GitCommit) (now : Str) :
    List App → List App × List (Bool × Str) × Nat × Nat
  | [] => ([], [], 0, 0)
  | app :: rest =>
    let r := update_app_version now api app
    let t := update_entries api now rest
    (r.1 :: t.1, r.2 :: t.2.1,
      (if r.2.1 then t.2.2.1 + 1 else t.2.2.1), t.2.2.2)

/-- Model of `RegistryUpdater.save_registry` (lines 159 to 173): refresh
`metadata.last_updated`, then write unless `dry_run`; `writeOk` is whether the
actual file write would succeed.  Returns (document, returned success, whether
a write to storage happened). -/
def save_registry (dry_run writeOk : Bool) (now : Str) (reg : Registry) :
    Registry × Bool × Bool :=
  let reg2 := { reg with last_updated := now }
  if dry_run then (reg2, true, false)
  else if writeOk then (reg2, true, true)
  else (reg2, false, false)

/-- The summary block printed at lines 219 to 223. -/
structure Summary where
  checked : Nat
  updated : Nat
  failed : Nat
  dryRunMode : Bool
deriving DecidableEq

/-- Observable result of one (post-load) run of `update_all_versions`:
the final in-memory document, the per-entry outcomes, the summary block if it
was printed, whether storage was written, whether the "No official apps found
in registry" error was reported, and the boolean the function returns. -/
structure RunOutput where
  registry : Registry
  outcomes : List (Bool × Str)
  summary : Option Summary
  wrote : Bool
  noAppsError : Bool
  success : Bool
deriving DecidableEq

/-- Model of `RegistryUpdater.update_all_versions` (lines 175 to 228) from the
point where the document has been loaded. -/
def update_all_versions (dry_run writeOk : Bool)
    (api : Str → Str → Option GitCommit) (now : Str)
    (registry : Registry) : RunOutput :=
  let official := registry.apps_official.getD []
  if official = [] then
    { registry := registry, outcomes := [], summary := none
    , wrote := false, noAppsError := true, success := false }
  else
    let t := update_entries api now official
    let reg1 := { registry with apps_official := some t.1 }
    if 0 < t.2.2.1 then
      let s := save_registry dry_run writeOk now reg1
      if s.2.1 then
        { registry := s.1, outcomes := t.2.1
        , summary := some ⟨official.length, t.2.2.1, t.2.2.2, dry_run⟩
        , wrote := s.2.2, noAppsError := false, success := true }
      else
        { registry := s.1, outcomes := t.2.1, summary := none
        , wrote := s.2.2, noAppsError := false, success := false }
    else
      { registry := reg1, outcomes := t.2.1
      , summary := some ⟨official.length, t.2.2.1, t.2.2.2, dry_run⟩
      , wrote := false, noAppsError := false, success := true }

/-- Model of `sys.exit(0 if success else 1)` in `main` (line 249). -/
def exit_code (success : Bool) : Nat := if success then 0 else 1

/-! ### Helper lemmas -/

theorem dropLit_self_append (lit s : Str) : dropLit lit (lit ++ s) = some s := by
  induction lit with
  | nil => rfl
  | cons c cs ih => simp [dropLit, ih]

theorem dropLit_eq_some {lit s r : Str} (h : dropLit lit s = some r) :
    s = lit ++ r := by
  induction lit generalizing s with
  | nil => simpa [dropLit] using h
  | cons c cs ih =>
    cases s with
    | nil => cases h
    | cons x xs =>
      by_cases hx : x = c
      · subst hx
        simp only [dropLit, if_pos rfl] at h
        simpa using ih h
      · simp [dropLit, hx] at h

theorem get_info_inv {api : Str → Str → Option GitCommit} {url : Str}
    {ci : CommitInfo} (h : get_github_commit_info api url = some ci) :
    ∃ owner repo c fd, parseRepoUrl url = some (owner, repo) ∧
      api owner repo = some c ∧ formatCommitDate c.date = some fd ∧
      ci = { hash := c.sha, short_hash := c.sha.take 8, date := fd
           , message := firstLine c.message
           , url := strChars ("https://github.com/") ++ owner ++
               strChars ("/") ++ repo ++ strChars ("/commit/") ++ c.sha } := by
  unfold get_github_commit_info at h
  cases hp : parseRepoUrl url with
  | none => simp only [hp] at h; exact Option.noConfusion h
  | some pr =>
    obtain ⟨owner, repo⟩ := pr
    simp only [hp] at h
    cases hc : api owner repo with
    | none => simp only [hc] at h; exact Option.noConfusion h
    | some c =>
      simp only [hc] at h
      cases hf : formatCommitDate c.date with
      | none => simp only [hf] at h; exact Option.noConfusion h
      | some fd =>
        simp only [hf, Option.some.injEq] at h
        exact ⟨owner, repo, c, fd, rfl, hc, hf, h.symm⟩

theorem get_info_repo_ne_nil {api : Str → Str → Option GitCommit} {url : Str}
    {ci : CommitInfo} (h : get_github_commit_info api url = some ci) :
    url ≠ [] := by
  intro hemp
  rw [hemp] at h
  simp [get_github_commit_info, parseRepoUrl, dropLit, strChars] at h

theorem update_entries_eq (api : Str → Str → Option GitCommit) (now : Str)
    (apps : List App) :
    update_entries api now apps =
      (apps.map (fun a => (update_app_version now api a).1),
       apps.map (fun a => (update_app_version now api a).2),
       apps.countP (fun a => (update_app_version now api a).2.1),
       0) := by
  induction apps with
  | nil => rfl
  | cons a rest ih =>
    simp only [update_entries, ih, List.map_cons, List.countP_cons]
    by_cases hb : (update_app_version now api a).2.1 <;> simp [hb]

/-! ### Concrete fixtures for witnesses and counterexamples -/

def wNow : Str := strChars ("2025-06-01 00:00:00 UTC")

def wCommit : GitCommit :=
  { sha := strChars ("def456789012abcdef0")
  , date := strChars ("2024-01-01T00:00:00Z")
  , message := strChars ("a commit message") }

def wApiOk : Str → Str → Option GitCommit := fun _ _ => some wCommit

def wApiFail : Str → Str → Option GitCommit := fun _ _ => none

def wCommitLong : GitCommit :=
  { sha := strChars ("def456789012abcdef0")
  , date := strChars ("2024-01-01T00:00:00Z")
  , message :=
      strChars ("aaaaaaaaaabbbbbbbbbbccccccccccddddddddddeeeeeeeeeeffff") }

def wApiLong : Str → Str → Option GitCommit := fun _ _ => some wCommitLong

def wApp : App :=
  { name := strChars ("gits")
  , repo := strChars ("github.com/ucli-tools/gits")
  , version := strChars ("abc123000000")
  , version_info := none }

def wAppCurrent : App :=
  { name := strChars ("gits")
  , repo := strChars ("github.com/ucli-tools/gits")
  , version := strChars ("def456789012abcdef0")
  , version_info := none }

def wReg : Registry := ⟨strChars ("old"), some [wApp]⟩

/-! ### Claims -/

/-- C1: when an entry's repository resolves to a commit whose full hash
differs from the stored `version`, the reconciliation step sets `version` to
the full hash, upserts `version_info` with keys `commit_date`,
`commit_message`, `commit_url` and `updated_at`, and returns
`updated = true` with message `"Updated to <short_hash>: <truncated message>"`
where `short_hash` is exactly the first 8 characters of the hash. -/
theorem c1_update_mutation (now : Str) (api : Str → Str → Option GitCommit)
    (app : App) (ci : CommitInfo)
    (hres : get_github_commit_info api app.repo = some ci)
    (hne : app.version ≠ ci.hash) :
    update_app_version now api app =
      ({ app with
           version := ci.hash
         , version_info := some { commit_date := ci.date
                                , commit_message := ci.message
                                , commit_url := ci.url
                                , updated_at := now } },
       true,
       strChars ("Updated to ") ++ ci.hash.take 8 ++ strChars (": ") ++
         (ci.message.take 50 ++
           (if 50 < ci.message.length then strChars ("...") else []))) ∧
    ci.short_hash = ci.hash.take 8 := by
  have hrepo : app.repo ≠ [] := get_info_repo_ne_nil hres
  obtain ⟨owner, repo, c, fd, hp, hc, hf, hci⟩ := get_info_inv hres
  have hsh : ci.short_hash = ci.hash.take 8 := by rw [hci]
  refine ⟨?_, hsh⟩
  simp [update_app_version, hrepo, hres, hne, hsh]

theorem c1_update_mutation_witness :
    get_github_commit_info wApiOk wApp.repo = some
      { hash := strChars ("def456789012abcdef0")
      , short_hash := strChars ("def45678")
      , date := strChars ("2024-01-01 00:00:00 UTC")
      , message := strChars ("a commit message")
      , url := strChars
          ("https://github.com/ucli-tools/gits/commit/def456789012abcdef0") } ∧
    update_app_version wNow wApiOk wApp =
      ({ wApp with
           version := strChars ("def456789012abcdef0")
         , version_info := some
             { commit_date := strChars ("2024-01-01 00:00:00 UTC")
             , commit_message := strChars ("a commit message")
             , commit_url := strChars
                 ("https://github.com/ucli-tools/gits/commit/def456789012abcdef0")
             , updated_at := wNow } },
       true,
       strChars ("Updated to def45678: a commit message")) := by
  refine ⟨by decide, ?_⟩
  have h := c1_update_mutation wNow wApiOk wApp
    { hash := strChars ("def456789012abcdef0")
    , short_hash := strChars ("def45678")
    , date := strChars ("2024-01-01 00:00:00 UTC")
    , message := strChars ("a commit message")
    , url := strChars
        ("https://github.com/ucli-tools/gits/commit/def456789012abcdef0") }
    (by decide) (by decide)
  rw [h.1]
  decide

/-- C6: when the resolved hash equals the stored `version`, the entry is
returned unchanged (in particular `version_info` is untouched) and the
outcome is `updated = false` with reason
`"Already at latest version <short_hash>"`. -/
theorem c6_selective_mutation (now : Str) (api : Str → Str → Option GitCommit)
    (app : App) (ci : CommitInfo)
    (hres : get_github_commit_info api app.repo = some ci)
    (heq : app.version = ci.hash) :
    update_app_version now api app =
      (app, false, strChars ("Already at latest version ") ++ ci.hash.take 8) := by
  have hrepo : app.repo ≠ [] := get_info_repo_ne_nil hres
  obtain ⟨owner, repo, c, fd, hp, hc, hf, hci⟩ := get_info_inv hres
  have hsh : ci.short_hash = ci.hash.take 8 := by rw [hci]
  simp [update_app_version, hrepo, hres, heq, hsh]

theorem c6_selective_mutation_witness :
    update_app_version wNow wApiOk wAppCurrent =
      (wAppCurrent, false, strChars ("Already at latest version def45678")) := by
  have h := c6_selective_mutation wNow wApiOk wAppCurrent
    { hash := strChars ("def456789012abcdef0")
    , short_hash := strChars ("def45678")
    , date := strChars ("2024-01-01 00:00:00 UTC")
    , message := strChars ("a commit message")
    , url := strChars
        ("https://github.com/ucli-tools/gits/commit/def456789012abcdef0") }
    (by decide) (by decide)
  rw [h]
  decide

/-- C2: on an update, the displayed outcome text equals the commit message
when its length is at most 50 characters and otherwise the first 50
characters followed by `"..."`; the `commit_message` persisted in
`version_info` is always the untruncated first line of the commit message. -/
theorem c2_truncation_law (now : Str) (api : Str → Str → Option GitCommit)
    (app : App) (ci : CommitInfo) (c : GitCommit) (owner repo : Str)
    (hp : parseRepoUrl app.repo = some (owner, repo))
    (hc : api owner repo = some c)
    (hres : get_github_commit_info api app.repo = some ci)
    (hne : app.version ≠ ci.hash) :
    (update_app_version now api app).2.2 =
      strChars ("Updated to ") ++ ci.short_hash ++ strChars (": ") ++
        (if ci.message.length ≤ 50 then ci.message
         else ci.message.take 50 ++ strChars ("...")) ∧
    (update_app_version now api app).1.version_info =
      some { commit_date := ci.date
           , commit_message := firstLine c.message
           , commit_url := ci.url
           , updated_at := now } := by
  have hrepo : app.repo ≠ [] := get_info_repo_ne_nil hres
  obtain ⟨o2, r2, c2x, fd, hp2, hc2, hf2, hci⟩ := get_info_inv hres
  rw [hp] at hp2
  obtain ⟨ho, hr⟩ := Prod.mk.inj (Option.some.inj hp2)
  subst ho
  subst hr
  rw [hc] at hc2
  have hcc : c = c2x := Option.some.inj hc2
  subst hcc
  have hmsg : ci.message = firstLine c.message := by rw [hci]
  have htr : ci.message.take 50 ++
      (if 50 < ci.message.length then strChars ("...") else []) =
      (if ci.message.length ≤ 50 then ci.message
       else ci.message.take 50 ++ strChars ("...")) := by
    by_cases hlen : ci.message.length ≤ 50
    · have hnl : ¬ 50 < ci.message.length := not_lt.mpr hlen
      simp [hlen, hnl, List.take_of_length_le hlen]
    · have hl : 50 < ci.message.length := not_le.mp hlen
      simp [hlen, hl]
  constructor
  · simp [update_app_version, hrepo, hres, hne, htr]
  · simp [update_app_version, hrepo, hres, hne, hmsg]

theorem c2_truncation_law_witness :
    (update_app_version wNow wApiLong wApp).2.2 =
      strChars
        ("Updated to def45678: aaaaaaaaaabbbbbbbbbbccccccccccddddddddddeeeeeeeeee...") ∧
    (update_app_version wNow wApiLong wApp).1.version_info =
      some { commit_date := strChars ("2024-01-01 00:00:00 UTC")
           , commit_message :=
               strChars ("aaaaaaaaaabbbbbbbbbbccccccccccddddddddddeeeeeeeeeeffff")
           , commit_url := strChars
               ("https://github.com/ucli-tools/gits/commit/def456789012abcdef0")
           , updated_at := wNow } := by
  have h := c2_truncation_law wNow wApiLong wApp
    { hash := strChars ("def456789012abcdef0")
    , short_hash := strChars ("def45678")
    , date := strChars ("2024-01-01 00:00:00 UTC")
    , message :=
        strChars ("aaaaaaaaaabbbbbbbbbbccccccccccddddddddddeeeeeeeeeeffff")
    , url := strChars
        ("https://github.com/ucli-tools/gits/commit/def456789012abcdef0") }
    wCommitLong (strChars ("ucli-tools")) (strChars ("gits"))
    (by decide) (by decide) (by decide) (by decide)
  refine ⟨?_, ?_⟩
  · rw [h.1]; decide
  · rw [h.2]; decide

def wRegNoApps : Registry := ⟨strChars ("old"), none⟩

/-- C3 (code bug): with one tracked entry whose resolution fails, the run
produces exactly one failed outcome, yet the reported summary says
`failed = 0`: the source initialises and prints `failed_count` but no branch
of the loop ever increments it, so the printed failed count is 0 no matter
how many resolutions fail. -/
theorem c3_failed_count_never_incremented :
    (update_all_versions false true wApiFail wNow wReg).outcomes =
      [(false, strChars ("Failed to fetch commit information"))] ∧
    (update_all_versions false true wApiFail wNow wReg).summary =
      some { checked := 1, updated := 0, failed := 0, dryRunMode := false } := by
  decide

/-- C4 (counterexample): a run whose single entry updates but whose registry
write fails reports no summary at all — `update_all_versions` returns `False`
before reaching the summary block — refuting the claim that the summary is
still reported after a failed save. -/
theorem c4_counterexample_no_summary_on_save_failure :
    (update_all_versions false false wApiOk wNow wReg).outcomes =
      [(true, strChars ("Updated to def45678: a commit message"))] ∧
    (update_all_versions false false wApiOk wNow wReg).summary = none ∧
    (update_all_versions false false wApiOk wNow wReg).success = false := by
  decide

/-- C4 (amended): if the registry document cannot be written after
reconciliation found updates, the run summary is NOT reported and the process
exits with a non-zero status. -/
theorem c4_amended_save_failure (api : Str → Str → Option GitCommit)
    (now : Str) (registry : Registry)
    (hofficial : registry.apps_official.getD [] ≠ [])
    (hupd : 0 <
      (update_entries api now (registry.apps_official.getD [])).2.2.1) :
    (update_all_versions false false api now registry).summary = none ∧
    (update_all_versions false false api now registry).success = false ∧
    exit_code (update_all_versions false false api now registry).success = 1 := by
  unfold update_all_versions
  simp [hofficial, hupd, save_registry, exit_code]

theorem c4_amended_save_failure_witness :
    wReg.apps_official.getD [] ≠ [] ∧
    0 < (update_entries wApiOk wNow (wReg.apps_official.getD [])).2.2.1 ∧
    ((update_all_versions false false wApiOk wNow wReg).summary = none ∧
     (update_all_versions false false wApiOk wNow wReg).success = false ∧
     exit_code (update_all_versions false false wApiOk wNow wReg).success = 1) := by
  exact ⟨by decide, by decide,
    c4_amended_save_failure wApiOk wNow wReg (by decide) (by decide)⟩

/-- C5: with the dry-run flag true no write to the persisted registry ever
occurs; `save_registry` still refreshes the in-memory `last_updated` field and
reports success; and the reported summary still reflects the would-be update
and failure counts of the reconciliation pass. -/
theorem c5_dry_run_purity (writeOk : Bool) (api : Str → Str → Option GitCommit)
    (now : Str) (registry : Registry)
    (hofficial : registry.apps_official.getD [] ≠ []) :
    (update_all_versions true writeOk api now registry).wrote = false ∧
    save_registry true writeOk now registry =
      ({ registry with last_updated := now }, true, false) ∧
    (update_all_versions true writeOk api now registry).summary =
      some ⟨(registry.apps_official.getD []).length,
            (update_entries api now (registry.apps_official.getD [])).2.2.1,
            (update_entries api now (registry.apps_official.getD [])).2.2.2,
            true⟩ := by
  refine ⟨?_, by simp [save_registry], ?_⟩ <;>
  · unfold update_all_versions
    by_cases h : 0 <
        (update_entries api now (registry.apps_official.getD [])).2.2.1 <;>
      simp [hofficial, h, save_registry]

theorem c5_dry_run_purity_witness :
    wReg.apps_official.getD [] ≠ [] ∧
    ((update_all_versions true false wApiOk wNow wReg).wrote = false ∧
     save_registry true false wNow wReg =
       ({ wReg with last_updated := wNow }, true, false) ∧
     (update_all_versions true false wApiOk wNow wReg).summary =
       some ⟨(wReg.apps_official.getD []).length,
             (update_entries wApiOk wNow (wReg.apps_official.getD [])).2.2.1,
             (update_entries wApiOk wNow (wReg.apps_official.getD [])).2.2.2,
             true⟩) := by
  exact ⟨by decide, c5_dry_run_purity false wApiOk wNow wReg (by decide)⟩

/-- C10: when the loaded document has no `apps.official` entries (key absent
or sequence empty), the run reports the "No official apps found" error,
performs no reconciliation and no save, and the process exits with status 1. -/
theorem c10_no_official_apps (dry_run writeOk : Bool)
    (api : Str → Str → Option GitCommit) (now : Str) (registry : Registry)
    (h : registry.apps_official.getD [] = []) :
    update_all_versions dry_run writeOk api now registry =
      { registry := registry, outcomes := [], summary := none
      , wrote := false, noAppsError := true, success := false } ∧
    exit_code (update_all_versions dry_run writeOk api now registry).success
      = 1 := by
  have h1 : update_all_versions dry_run writeOk api now registry =
      { registry := registry, outcomes := [], summary := none
      , wrote := false, noAppsError := true, success := false } := by
    unfold update_all_versions
    simp [h]
  exact ⟨h1, by rw [h1]; rfl⟩

theorem c10_no_official_apps_witness :
    wRegNoApps.apps_official.getD [] = [] ∧
    (update_all_versions false true wApiOk wNow wRegNoApps =
      { registry := wRegNoApps, outcomes := [], summary := none
      , wrote := false, noAppsError := true, success := false } ∧
     exit_code
       (update_all_versions false true wApiOk wNow wRegNoApps).success = 1) := by
  exact ⟨by decide,
    c10_no_official_apps false true wApiOk wNow wRegNoApps (by decide)⟩

def wAppBad : App :=
  { name := strChars ("broken")
  , repo := strChars ("github.com/ucli-tools/bad")
  , version := strChars ("abc123000000")
  , version_info := none }

def wApiMixed : Str → Str → Option GitCommit :=
  fun _ repo => if repo = strChars ("bad") then none else some wCommit

/-- C7: when resolution fails for entry k of N, an outcome is produced for
all N entries, entry k's outcome is `updated = false` with reason
`"Failed to fetch commit information"`, entry k is left unchanged, and every
other entry (including those after k) is still processed independently; the
loop is a total function, so no entry-level error escapes or aborts it. -/
theorem c7_partial_failure_isolation (api : Str → Str → Option GitCommit)
    (now : Str) (apps : List App) (k : Nat) (hk : k < apps.length)
    (hrepo : apps[k].repo ≠ [])
    (hfail : get_github_commit_info api apps[k].repo = none) :
    ((update_entries api now apps).2.1).length = apps.length ∧
    ((update_entries api now apps).1).length = apps.length ∧
    ((update_entries api now apps).2.1)[k]? =
      some (false, strChars ("Failed to fetch commit information")) ∧
    ((update_entries api now apps).1)[k]? = some apps[k] ∧
    (∀ j : Nat, ((update_entries api now apps).2.1)[j]? =
      (apps[j]?).map (fun a => (update_app_version now api a).2)) := by
  have he := update_entries_eq api now apps
  have hupd : update_app_version now api apps[k] =
      (apps[k], false, strChars ("Failed to fetch commit information")) := by
    simp [update_app_version, hrepo, hfail]
  refine ⟨?_, ?_, ?_, ?_, ?_⟩
  · rw [he]; simp
  · rw [he]; simp
  · rw [he]
    simp only [List.getElem?_map, List.getElem?_eq_getElem hk]
    simp [hupd]
  · rw [he]
    simp only [List.getElem?_map, List.getElem?_eq_getElem hk]
    simp [hupd]
  · intro j
    rw [he]
    simp [List.getElem?_map]

theorem c7_partial_failure_isolation_witness :
    1 < ([wApp, wAppBad, wApp] : List App).length ∧
    ([wApp, wAppBad, wApp] : List App)[1].repo ≠ [] ∧
    get_github_commit_info wApiMixed
      (([wApp, wAppBad, wApp] : List App)[1]).repo = none ∧
    (((update_entries wApiMixed wNow [wApp, wAppBad, wApp]).2.1).length = 3 ∧
     ((update_entries wApiMixed wNow [wApp, wAppBad, wApp]).2.1)[1]? =
       some (false, strChars ("Failed to fetch commit information")) ∧
     ((update_entries wApiMixed wNow [wApp, wAppBad, wApp]).1)[1]? =
       some wAppBad ∧
     ((update_entries wApiMixed wNow [wApp, wAppBad, wApp]).2.1)[2]? =
       some (true, strChars ("Updated to def45678: a commit message"))) := by
  have h := c7_partial_failure_isolation wApiMixed wNow [wApp, wAppBad, wApp]
    1 (by decide) (by decide) (by decide)
  refine ⟨by decide, by decide, by decide, h.1, h.2.2.1, ?_, ?_⟩
  · have h4 := h.2.2.2.1
    exact h4
  · have h5 := h.2.2.2.2 2
    rw [h5]
    decide

theorem parseRepoUrl_success (owner repo rest : Str)
    (ho : owner ≠ []) (hr : repo ≠ [])
    (ho2 : ∀ c ∈ owner, c ≠ '/') (hr2 : ∀ c ∈ repo, c ≠ '/') :
    parseRepoUrl (strChars ("github.com/") ++ (owner ++ ('/' :: (repo ++ rest)))) =
      some (owner, (repo ++ rest).takeWhile (fun c => c ≠ '/')) := by
  have hpo : ∀ a ∈ owner, (decide (a ≠ '/')) = true :=
    fun a ha => decide_eq_true (ho2 a ha)
  have h1 : dropLit (strChars ("github.com/"))
      (strChars ("github.com/") ++ (owner ++ ('/' :: (repo ++ rest)))) =
      some (owner ++ ('/' :: (repo ++ rest))) := dropLit_self_append _ _
  have hrne : ((repo ++ rest).takeWhile (fun c => decide (c ≠ '/'))) ≠ [] := by
    cases repo with
    | nil => exact absurd rfl hr
    | cons c cs =>
      have hc2 : ¬ c = '/' := hr2 c (by simp)
      simp [List.takeWhile_cons, hc2]
  unfold parseRepoUrl
  rw [h1]
  dsimp only
  rw [List.takeWhile_append_of_pos hpo, List.dropWhile_append_of_pos hpo]
  simp only [List.takeWhile_cons, List.dropWhile_cons]
  simp [ho, hrne]
  cases repo with
  | nil => exact absurd rfl hr
  | cons c cs =>
    refine ⟨Or.inl (by simp), ?_⟩
    simpa using hr2 c (by simp)

theorem parseRepoUrl_inv {s owner repo : Str}
    (h : parseRepoUrl s = some (owner, repo)) :
    ∃ rest, s = strChars ("github.com/") ++ (owner ++ ('/' :: (repo ++ rest))) ∧
      owner ≠ [] ∧ repo ≠ [] ∧
      (∀ c ∈ owner, c ≠ '/') ∧ (∀ c ∈ repo, c ≠ '/') := by
  unfold parseRepoUrl at h
  cases hd : dropLit (strChars ("github.com/")) s with
  | none => simp only [hd] at h; exact Option.noConfusion h
  | some r1 =>
    simp only [hd] at h
    have hs : s = strChars ("github.com/") ++ r1 := dropLit_eq_some hd
    by_cases how : r1.takeWhile (fun c => decide (c ≠ '/')) = []
    · rw [if_pos how] at h; exact Option.noConfusion h
    · rw [if_neg how] at h
      cases hdw : r1.dropWhile (fun c => decide (c ≠ '/')) with
      | nil => rw [hdw] at h; exact Option.noConfusion h
      | cons x r2 =>
        rw [hdw] at h
        have hx : x = '/' := by
          have h4 := List.head?_dropWhile_not (fun c => decide (c ≠ '/')) r1
          rw [hdw] at h4
          simpa using h4
        subst hx
        simp only at h
        by_cases hrw : r2.takeWhile (fun c => decide (c ≠ '/')) = []
        · rw [if_pos hrw] at h; exact Option.noConfusion h
        · rw [if_neg hrw] at h
          obtain ⟨h1, h2⟩ := Prod.mk.inj (Option.some.inj h)
          obtain ⟨t, ht⟩ : ∃ t, r2.dropWhile (fun c => decide (c ≠ '/')) = t :=
            ⟨_, rfl⟩
          have hr1 : r1 = owner ++ ('/' :: r2) := by
            conv_lhs => rw [← List.takeWhile_append_dropWhile
              (fun c => decide (c ≠ '/')) r1]
            rw [h1, hdw]
          have hr2x : r2 = repo ++ t := by
            conv_lhs => rw [← List.takeWhile_append_dropWhile
              (fun c => decide (c ≠ '/')) r2]
            rw [h2, ht]
          refine ⟨t, ?_, ?_, ?_, ?_, ?_⟩
          · rw [hs, hr1, hr2x]
          · rw [← h1]; exact how
          · rw [← h2]; exact hrw
          · intro c hc
            rw [← h1] at hc
            simpa using List.mem_takeWhile_imp hc
          · intro c hc
            rw [← h2] at hc
            simpa using List.mem_takeWhile_imp hc

/-- C8 (counterexample): `re.match` anchors at the start of the string, so a
`repo` string that merely CONTAINS the `<host>/<owner>/<repo>` pattern — here
with an `https://` scheme prefix — fails to parse, refuting "fails exactly
when the string does not contain a recognizable pattern". -/
theorem c8_counterexample_contained_not_anchored :
    parseRepoUrl (strChars ("https://github.com/ucli-tools/gits")) = none ∧
    strChars ("https://") ++ strChars ("github.com/ucli-tools/gits") =
      strChars ("https://github.com/ucli-tools/gits") ∧
    parseRepoUrl (strChars ("github.com/ucli-tools/gits")) =
      some (strChars ("ucli-tools"), strChars ("gits")) := by
  decide

/-- C8 (amended): the parser extracts `(owner, repository_name)` from every
string that STARTS with `github.com/<owner>/<repository_name>` (extra path
segments after the repository name are ignored), and it fails exactly when
the string does not start with such a pattern. -/
theorem c8_amended_anchored_parse (s : Str) :
    (∀ owner repo rest : Str, owner ≠ [] → repo ≠ [] →
        (∀ c ∈ owner, c ≠ '/') → (∀ c ∈ repo, c ≠ '/') →
        (rest = [] ∨ ∃ rest2, rest = '/' :: rest2) →
        s = strChars ("github.com/") ++ (owner ++ ('/' :: (repo ++ rest))) →
        parseRepoUrl s = some (owner, repo)) ∧
    (parseRepoUrl s = none ↔
      ¬ ∃ owner repo rest : Str, owner ≠ [] ∧ repo ≠ [] ∧
          (∀ c ∈ owner, c ≠ '/') ∧ (∀ c ∈ repo, c ≠ '/') ∧
          s = strChars ("github.com/") ++ (owner ++ ('/' :: (repo ++ rest)))) := by
  constructor
  · rintro owner repo rest ho hr ho2 hr2 hrest rfl
    rw [parseRepoUrl_success owner repo rest ho hr ho2 hr2]
    have hpr : ∀ a ∈ repo, (decide (a ≠ '/')) = true :=
      fun a ha => decide_eq_true (hr2 a ha)
    have htw : (repo ++ rest).takeWhile (fun c => decide (c ≠ '/')) = repo := by
      rw [List.takeWhile_append_of_pos hpr]
      rcases hrest with rfl | ⟨rest2, rfl⟩
      · simp
      · simp [List.takeWhile_cons]
    rw [htw]
  · constructor
    · intro hn
      rintro ⟨owner, repo, rest, ho, hr, ho2, hr2, rfl⟩
      rw [parseRepoUrl_success owner repo rest ho hr ho2 hr2] at hn
      exact Option.noConfusion hn
    · intro hne
      cases hps : parseRepoUrl s with
      | none => rfl
      | some pr =>
        obtain ⟨owner, repo⟩ := pr
        obtain ⟨rest, hdecomp, ho, hr, ho2, hr2⟩ := parseRepoUrl_inv hps
        exact absurd ⟨owner, repo, rest, ho, hr, ho2, hr2, hdecomp⟩ hne

theorem c8_amended_anchored_parse_witness :
    parseRepoUrl (strChars ("github.com/ucli-tools/gits/tree/main")) =
      some (strChars ("ucli-tools"), strChars ("gits")) := by
  exact (c8_amended_anchored_parse
      (strChars ("github.com/ucli-tools/gits/tree/main"))).1
    (strChars ("ucli-tools")) (strChars ("gits")) (strChars ("/tree/main"))
    (by decide) (by decide) (by decide) (by decide)
    (Or.inr ⟨strChars ("tree/main"), by decide⟩) (by decide)

def wDt : PyDateTime := ⟨2024, 1, 1, 12, 0, 0, 0⟩

def wDtOffset : PyDateTime := ⟨2024, 1, 1, 12, 0, 0, 300⟩

def wDtUtc : PyDateTime := ⟨2024, 1, 1, 7, 0, 0, 0⟩

/-- C9 (counterexample): for the committer timestamp
`2024-01-01T12:00:00+05:00` the pipeline renders `"2024-01-01 12:00:00 UTC"`,
but that timestamp denotes the same instant as `2024-01-01T07:00:00Z`, whose
UTC rendering is `"2024-01-01 07:00:00 UTC"`: `strftime` stamps the wall-clock
fields with "UTC" without converting, so for a non-UTC offset the date field
does not denote the instant expressed in UTC. -/
theorem c9_counterexample_nonutc_offset :
    formatCommitDate (strChars ("2024-01-01T12:00:00+05:00")) =
      some (strChars ("2024-01-01 12:00:00 UTC")) ∧
    fromisoChars (replaceZ (strChars ("2024-01-01T12:00:00+05:00"))) =
      some wDtOffset ∧
    epochSeconds wDtOffset = epochSeconds wDtUtc ∧
    strftimeFmt wDtUtc = strChars ("2024-01-01 07:00:00 UTC") ∧
    formatCommitDate (strChars ("2024-01-01T12:00:00+05:00")) ≠
      some (strftimeFmt wDtUtc) := by
  decide

/-- C9 (amended): for every committer timestamp the parser accepts, the date
field is the timestamp's own wall-clock fields rendered as
`YYYY-MM-DD HH:MM:SS UTC`; this rendering denotes the timestamp's instant
expressed in UTC exactly when the timestamp's UTC offset is zero (as for
GitHub's `Z`-suffixed timestamps), not for non-UTC offsets. -/
theorem c9_amended_wall_clock_render (s : Str) (dt : PyDateTime)
    (h : fromisoChars (replaceZ s) = some dt) :
    formatCommitDate s = some (strftimeFmt dt) ∧
    (epochSeconds { dt with offsetMin := 0 } = epochSeconds dt ↔
      dt.offsetMin = 0) := by
  constructor
  · simp [formatCommitDate, h]
  · simp only [epochSeconds]
    constructor
    · intro h2
      omega
    · intro h2
      rw [h2]

theorem c9_amended_wall_clock_render_witness :
    fromisoChars (replaceZ (strChars ("2024-01-01T12:00:00Z"))) = some wDt ∧
    (formatCommitDate (strChars ("2024-01-01T12:00:00Z")) =
        some (strftimeFmt wDt) ∧
     (epochSeconds { wDt with offsetMin := 0 } = epochSeconds wDt ↔
        wDt.offsetMin = 0)) := by
  exact ⟨by decide,
    c9_amended_wall_clock_render (strChars ("2024-01-01T12:00:00Z")) wDt
      (by decide)⟩
